import Mathlib

/-!
Verification of the crate-graph input model (`crates/ra_db/src/input.rs`).

The Rust code is shallowly embedded: `&str` / `SmolStr` become `List Char`,
`u32` identifiers become `Nat`, the `FxHashMap<CrateId, CrateData>` arena
becomes an association list with first-match lookup and replace-or-append
insertion, fallible operations return `Except`, and operations that can
panic (`assert!`, `unwrap`, indexing a missing id) return `Option` with
`none` standing for the panic.
-/

/-- Rust string data (`&str` / `SmolStr`) modeled as its character sequence. -/
abbrev Str := List Char

/-- `FileId(pub u32)`: an opaque integer handle for a file. -/
structure FileId where
  id : Nat
deriving DecidableEq

/-- The `Edition` enumeration, variants in source order (`Edition2018`, `Edition2015`). -/
inductive Edition where
  | Edition2018
  | Edition2015
deriving DecidableEq

/-- `ParseEditionError { invalid_input: String }`: carries the rejected text. -/
structure ParseEditionError where
  invalid_input : Str
deriving DecidableEq

/-- `CyclicDependenciesError`: the unit error returned by `CrateGraph::add_dep`. -/
structure CyclicDependenciesError where
deriving DecidableEq

/-- `CrateName(SmolStr)`: a validated crate name wrapping its text. -/
structure CrateName where
  text : Str
deriving DecidableEq

/-- `ra_cfg::CfgOptions` is outside the excerpted source; the spec treats it as an
opaque cfg predicate set, so it is modeled as an opaque token carried unchanged. -/
structure CfgOptions where
  token : Nat
deriving DecidableEq

/-- `ExternSourceId(pub u32)`. -/
structure ExternSourceId where
  id : Nat
deriving DecidableEq

/-- `Env { entries: FxHashMap<String, String> }`, modeled as an association list. -/
structure Env where
  entries : List (Str × Str)
deriving DecidableEq

/-- `ExternSource { extern_paths: FxHashMap<PathBuf, ExternSourceId> }`,
paths modeled as strings. -/
structure ExternSource where
  extern_paths : List (Str × ExternSourceId)
deriving DecidableEq

/-- `ProcMacro { name, expander: Arc<dyn TokenExpander> }`. The expander is an opaque
capability compared by `Arc::ptr_eq`; pointer identity is modeled as an opaque
registration index, as the spec itself suggests (§9). -/
structure ProcMacro where
  name : Str
  expander : Nat
deriving DecidableEq

/-- `CrateId(pub u32)`: an arena index. -/
abbrev CrateId := Nat

/-- `CrateId::shift(self, amount)`: `CrateId(self.0 + amount)`. -/
def CrateId.shift (c : Nat) (amount : Nat) : Nat :=
  c + amount

/-- `Dependency { crate_id, name }`: one named dependency edge. -/
structure Dependency where
  crate_id : Nat
  name : Str
deriving DecidableEq

/-- `CrateData`: one crate record, fields in source order. -/
structure CrateData where
  root_file_id : FileId
  edition : Edition
  display_name : Option CrateName
  cfg_options : CfgOptions
  env : Env
  extern_source : ExternSource
  dependencies : List Dependency
  proc_macro : List ProcMacro
deriving DecidableEq

/-- `CrateGraph { arena: FxHashMap<CrateId, CrateData> }`. The hash map is modeled
as an association list; lookup takes the first matching key and insertion
replaces in place or appends, so a map built through the operations below
never holds a duplicate key. -/
structure CrateGraph where
  arena : List (Nat × CrateData)
deriving DecidableEq

/-- `HashMap::get`: value at the first matching key, if any. -/
def arenaLookup : List (Nat × CrateData) → Nat → Option CrateData
  | [], _ => none
  | p :: rest, k => if p.1 = k then some p.2 else arenaLookup rest k

/-- `HashMap::insert`: replace the binding of an existing key in place,
otherwise append the new binding. -/
def arenaInsert : List (Nat × CrateData) → Nat → CrateData → List (Nat × CrateData)
  | [], k, v => [(k, v)]
  | p :: rest, k, v => if p.1 = k then (k, v) :: rest else p :: arenaInsert rest k v

/-- The key list of the arena (the graph's crate ids, in arena order). -/
def CrateGraph.keys (g : CrateGraph) : List Nat :=
  g.arena.map Prod.fst

/-- `CrateName::new`: rejects names containing a dash, returning the input
itself as the error; otherwise wraps the text unchanged. -/
def CrateName.new (name : Str) : Except Str CrateName :=
  if name.contains '-' then Except.error name else Except.ok ⟨name⟩

/-- `CrateName::normalize_dashes`: `name.replace('-', "_")`, replacing every
dash character by an underscore. -/
def CrateName.normalize_dashes (name : Str) : CrateName :=
  ⟨name.map (fun c => if c = '-' then '_' else c)⟩

/-- `Display for CrateName`: renders the wrapped text. -/
def CrateName.fmt (c : CrateName) : Str :=
  c.text

/-- `Edition::from_str`: accepts exactly the literals "2015" and "2018",
otherwise errors with the input text. -/
def Edition.from_str (s : Str) : Except ParseEditionError Edition :=
  if s = "2015".data then Except.ok Edition.Edition2015
  else if s = "2018".data then Except.ok Edition.Edition2018
  else Except.error ⟨s⟩

/-- `Display for Edition`: renders the decimal literal of the variant. -/
def Edition.fmt : Edition → Str
  | Edition.Edition2015 => "2015".data
  | Edition.Edition2018 => "2018".data

/-- `CrateData::add_dep`: `self.dependencies.push(Dependency { name, crate_id })`. -/
def CrateData.add_dep (d : CrateData) (name : Str) (crate_id : Nat) : CrateData :=
  { d with dependencies := d.dependencies ++ [{ crate_id := crate_id, name := name }] }

/-- `CrateGraph::add_crate_root`: builds the record with an empty dependency
list, allocates id `arena.len()`, inserts, and asserts the id was fresh.
The `assert!(prev.is_none())` panic is modeled as `none`. -/
def CrateGraph.add_crate_root (g : CrateGraph) (file_id : FileId) (edition : Edition)
    (display_name : Option CrateName) (cfg_options : CfgOptions) (env : Env)
    (extern_source : ExternSource) ( proc_macro : List (Str × Nat)) :
    Option (Nat × CrateGraph) :=
  let pm := proc_macro.map (fun p => ProcMacro.mk p.1 p.2)
  let data : CrateData :=
    { root_file_id := file_id, edition := edition, display_name := display_name,
      cfg_options := cfg_options, env := env, extern_source := extern_source,
      proc_macro := pm, dependencies := [] }
  let crate_id : Nat := g.arena.length
  let prev := arenaLookup g.arena crate_id
  if prev.isSome then none
  else some (crate_id, ⟨arenaInsert g.arena crate_id data⟩)

mutual

/-- `CrateGraph::dfs_find(target, from, visited)`: returns whether `target` is
reachable from `frm` through at least one dependency edge, threading the
visited set. The Rust recursion carries no fuel; here a fuel argument bounds
the recursion depth (`none` = fuel exhausted), and the fuel used by `add_dep`
is proven sufficient for every graph with valid edges. Indexing a missing id
(`self[from]`, a Rust panic) is also `none`. -/
def CrateGraph.dfs_find (g : CrateGraph) (target : Nat) :
    Nat → Nat → List Nat → Option (Bool × List Nat)
  | 0, _, _ => none
  | fuel + 1, frm, visited =>
    if frm ∈ visited then some (false, visited)
    else
      match arenaLookup g.arena frm with
      | none => none
      | some data => CrateGraph.dfs_each g target fuel data.dependencies (frm :: visited)
termination_by fuel _ _ => (fuel, 0)

/-- The `for dep in &self[from].dependencies` loop body of `dfs_find`. -/
def CrateGraph.dfs_each (g : CrateGraph) (target : Nat) :
    Nat → List Dependency → List Nat → Option (Bool × List Nat)
  | _, [], visited => some (false, visited)
  | fuel, dep :: rest, visited =>
    if dep.crate_id = target then some (true, visited)
    else
      match CrateGraph.dfs_find g target fuel dep.crate_id visited with
      | none => none
      | some (found, visited1) =>
        if found then some (true, visited1)
        else CrateGraph.dfs_each g target fuel rest visited1
termination_by fuel deps _ => (fuel, deps.length + 1)

end

/-- `CrateGraph::add_dep(from, name, to)`: rejects the edge when `from` is found
by the DFS starting at `to`, otherwise appends `(name, to)` to `from`'s record.
The `.unwrap()` panic on a missing `from` and the panics inside the DFS are
modeled as `none`; the state-passing result pairs the `Result` with the graph
after the call, mirroring `&mut self`. -/
def CrateGraph.add_dep (g : CrateGraph) (frm : Nat) (name : CrateName) (tgt : Nat) :
    Option (Except CyclicDependenciesError Unit × CrateGraph) :=
  match CrateGraph.dfs_find g frm (g.arena.length + 1) tgt [] with
  | none => none
  | some (true, _) => some (Except.error ⟨⟩, g)
  | some (false, _) =>
    match arenaLookup g.arena frm with
    | none => none
    | some data =>
      some (Except.ok (), ⟨arenaInsert g.arena frm (CrateData.add_dep data name.text tgt)⟩)

/-- `CrateGraph::extend(other)`: shift every id and dependency target of `other`
by this graph's size, insert all shifted records, and return the shift
(paired with the graph after the call, mirroring `&mut self`). -/
def CrateGraph.extend (g : CrateGraph) (other : CrateGraph) : Nat × CrateGraph :=
  let start := g.arena.length
  (start,
    ⟨other.arena.foldl
      (fun acc p =>
        arenaInsert acc (CrateId.shift p.1 start)
          { p.2 with dependencies :=
              (p.2).dependencies.map (fun dep => { dep with crate_id := CrateId.shift dep.crate_id start }) })
      g.arena⟩)

/-- One dependency edge of the graph: crate `a`'s record lists a dependency on `b`. -/
def CrateGraph.dependsOn (g : CrateGraph) (a b : Nat) : Prop :=
  ∃ d, arenaLookup g.arena a = some d ∧ ∃ dep ∈ d.dependencies, dep.crate_id = b

/-- The dependency relation has no cycle (no crate transitively depends on itself). -/
def CrateGraph.Acyclic (g : CrateGraph) : Prop :=
  ∀ a, ¬ Relation.TransGen (CrateGraph.dependsOn g) a a

/-- Inserting the edge `frm → to` would close a dependency cycle: `frm` is already
reachable from `to` along existing edges (reflexively, so `frm = to` is the
direct self-loop case). -/
def CrateGraph.wouldCycle (g : CrateGraph) (frm tgt : Nat) : Prop :=
  Relation.ReflTransGen (CrateGraph.dependsOn g) tgt frm

/-- Graphs built through the public construction API: the empty graph, closed
under successful `add_crate_root`, successful `add_dep`, and `extend` with
another such graph. -/
inductive Reachable : CrateGraph → Prop where
  | empty : Reachable ⟨[]⟩
  | add_root {g : CrateGraph} {f : FileId} {e : Edition} {dn : Option CrateName}
      {cfg : CfgOptions} {env : Env} {ext : ExternSource} {pm : List (Str × Nat)}
      {i : Nat} {g1 : CrateGraph} :
      Reachable g → CrateGraph.add_crate_root g f e dn cfg env ext pm = some (i, g1) →
      Reachable g1
  | add_dep {g : CrateGraph} {frm tgt : Nat} {n : CrateName} {g1 : CrateGraph} :
      Reachable g → CrateGraph.add_dep g frm n tgt = some (Except.ok (), g1) →
      Reachable g1
  | extend {g h : CrateGraph} {s : Nat} {g1 : CrateGraph} :
      Reachable g → Reachable h → CrateGraph.extend g h = (s, g1) →
      Reachable g1

/-- The structural invariant of API-built graphs: ids are exactly `0..size-1`
(each occurring once) and every stored dependency edge targets a stored id. -/
structure WF (g : CrateGraph) : Prop where
  contiguous : ∀ k, k ∈ CrateGraph.keys g ↔ k < g.arena.length
  nodup : (CrateGraph.keys g).Nodup
  deps_valid : ∀ p ∈ g.arena, ∀ dep ∈ (p.2).dependencies, dep.crate_id < g.arena.length

/-- Number of arena keys not yet in the visited list (the DFS fuel measure). -/
def CrateGraph.unvisited (g : CrateGraph) (visited : List Nat) : Nat :=
  (CrateGraph.keys g).countP (fun k => !(visited.contains k))

/-- The relabeling `extend` applies to one merged-in arena entry: shift the key
and every dependency target by `start`. -/
def shiftPair (start : Nat) (p : Nat × CrateData) : Nat × CrateData :=
  (CrateId.shift p.1 start,
    { p.2 with dependencies :=
        (p.2).dependencies.map (fun dep => { dep with crate_id := CrateId.shift dep.crate_id start }) })

/-- A sample crate record with root file `f` and no dependencies, used to build
concrete instances. -/
def sampleData (f : Nat) : CrateData :=
  ⟨⟨f⟩, Edition.Edition2018, none, ⟨0⟩, ⟨[]⟩, ⟨[]⟩, [], []⟩

/-- One-crate graph: crate 0, no edges. -/
def sampleG1 : CrateGraph :=
  ⟨[(0, sampleData 1)]⟩

/-- Crate 0 carrying the self-edge `0 → 0` named "x". -/
def sampleG1Loop : CrateGraph :=
  ⟨[(0, { sampleData 1 with dependencies := [⟨0, "x".data⟩] })]⟩

/-- Two-crate graph: crates 0 and 1, no edges. -/
def sampleG2 : CrateGraph :=
  ⟨[(0, sampleData 1), (1, sampleData 2)]⟩

/-- `sampleG2` plus the edge `0 → 1` named "b". -/
def sampleG2b : CrateGraph :=
  ⟨[(0, { sampleData 1 with dependencies := [⟨1, "b".data⟩] }), (1, sampleData 2)]⟩

/-! ## Arena (association-list hash map) lemmas -/

theorem arenaLookup_append (a b : List (Nat × CrateData)) (k : Nat) :
    arenaLookup (a ++ b) k =
      (match arenaLookup a k with
        | some v => some v
        | none => arenaLookup b k) := by
  induction a with
  | nil => simp [arenaLookup]
  | cons p rest ih =>
    by_cases h : p.1 = k <;> simp [arenaLookup, h, ih]

theorem arenaLookup_isSome_iff (a : List (Nat × CrateData)) (k : Nat) :
    (arenaLookup a k).isSome = true ↔ k ∈ a.map Prod.fst := by
  induction a with
  | nil => simp [arenaLookup]
  | cons p rest ih =>
    by_cases h : p.1 = k
    · constructor
      · intro _
        rw [List.map_cons]
        exact h ▸ List.mem_cons_self _ _
      · intro _
        simp [arenaLookup, h]
    · rw [List.map_cons, List.mem_cons]
      simp only [arenaLookup, if_neg h]
      rw [ih]
      constructor
      · exact Or.inr
      · rintro (hk | hk)
        · exact absurd hk.symm h
        · exact hk

theorem arenaLookup_eq_none_iff (a : List (Nat × CrateData)) (k : Nat) :
    arenaLookup a k = none ↔ k ∉ a.map Prod.fst := by
  rw [← arenaLookup_isSome_iff]
  cases arenaLookup a k <;> simp

theorem arenaLookup_mem {a : List (Nat × CrateData)} {k : Nat} {v : CrateData}
    (h : arenaLookup a k = some v) : (k, v) ∈ a := by
  induction a with
  | nil => simp [arenaLookup] at h
  | cons p rest ih =>
    by_cases hp : p.1 = k
    · simp only [arenaLookup, if_pos hp, Option.some.injEq] at h
      have : p = (k, v) := by
        cases p
        simp_all
      rw [this]
      exact List.mem_cons_self _ _
    · simp only [arenaLookup, if_neg hp] at h
      exact List.mem_cons_of_mem _ (ih h)

theorem arenaInsert_not_mem {a : List (Nat × CrateData)} {k : Nat} (v : CrateData)
    (h : k ∉ a.map Prod.fst) : arenaInsert a k v = a ++ [(k, v)] := by
  induction a with
  | nil => simp [arenaInsert]
  | cons p rest ih =>
    rw [List.map_cons, List.mem_cons] at h
    push_neg at h
    have hp : ¬ p.1 = k := fun he => h.1 he.symm
    simp [arenaInsert, hp, ih h.2]

theorem arenaInsert_map_fst_mem {a : List (Nat × CrateData)} {k : Nat} (v : CrateData)
    (h : k ∈ a.map Prod.fst) : (arenaInsert a k v).map Prod.fst = a.map Prod.fst := by
  induction a with
  | nil => simp at h
  | cons p rest ih =>
    by_cases hp : p.1 = k
    · simp [arenaInsert, hp]
    · rw [List.map_cons, List.mem_cons] at h
      rcases h with h | h
      · exact absurd h.symm hp
      · simp [arenaInsert, hp, ih h]

theorem arenaLookup_insert_self (a : List (Nat × CrateData)) (k : Nat) (v : CrateData) :
    arenaLookup (arenaInsert a k v) k = some v := by
  induction a with
  | nil => simp [arenaInsert, arenaLookup]
  | cons p rest ih =>
    by_cases hp : p.1 = k <;> simp [arenaInsert, hp, arenaLookup, ih]

theorem arenaLookup_insert_ne (a : List (Nat × CrateData)) {j k : Nat} (v : CrateData)
    (h : j ≠ k) : arenaLookup (arenaInsert a k v) j = arenaLookup a j := by
  have hkj : ¬ k = j := fun he => h he.symm
  induction a with
  | nil => simp [arenaInsert, arenaLookup, hkj]
  | cons p rest ih =>
    by_cases hp : p.1 = k
    · have hpj : ¬ p.1 = j := by rw [hp]; exact hkj
      simp only [arenaInsert, if_pos hp, arenaLookup, if_neg hkj, if_neg hpj]
    · by_cases hj : p.1 = j
      · simp only [arenaInsert, if_neg hp, arenaLookup, if_pos hj]
      · simp only [arenaInsert, if_neg hp, arenaLookup, if_neg hj, ih]

theorem arenaInsert_mem {a : List (Nat × CrateData)} {k : Nat} {v : CrateData}
    {p : Nat × CrateData} (h : p ∈ arenaInsert a k v) : p = (k, v) ∨ p ∈ a := by
  induction a with
  | nil =>
    simp [arenaInsert] at h
    simp [h]
  | cons q rest ih =>
    by_cases hq : q.1 = k
    · simp only [arenaInsert, if_pos hq, List.mem_cons] at h
      rcases h with h | h
      · exact Or.inl h
      · exact Or.inr (List.mem_cons_of_mem _ h)
    · simp only [arenaInsert, if_neg hq, List.mem_cons] at h
      rcases h with h | h
      · exact Or.inr (h ▸ List.mem_cons_self _ _)
      · rcases ih h with h1 | h1
        · exact Or.inl h1
        · exact Or.inr (List.mem_cons_of_mem _ h1)

theorem arenaInsert_length_mem {a : List (Nat × CrateData)} {k : Nat} (v : CrateData)
    (h : k ∈ a.map Prod.fst) : (arenaInsert a k v).length = a.length := by
  have h1 : ((arenaInsert a k v).map Prod.fst).length = (a.map Prod.fst).length := by
    rw [arenaInsert_map_fst_mem v h]
  simpa using h1

/-! ## Claim C7: crate-name validation -/

/-- C7: `CrateName::new` fails exactly when the input contains a hyphen, the error
carries the rejected text verbatim, and on success the identifier renders back
as the input unchanged. -/
theorem crate_name_validation (s : Str) :
    (CrateName.new s = Except.error s ↔ '-' ∈ s) ∧
    ((∃ e, CrateName.new s = Except.error e) ↔ '-' ∈ s) ∧
    ('-' ∉ s ↔ ∃ c, CrateName.new s = Except.ok c ∧ CrateName.fmt c = s) := by
  by_cases h : '-' ∈ s
  · refine ⟨by simp [CrateName.new, h], by simp [CrateName.new, h], ?_⟩
    simp [CrateName.new, h]
  · have hok : CrateName.new s = Except.ok ⟨s⟩ := by simp [CrateName.new, h]
    exact ⟨iff_of_false (by rw [hok]; simp) h, iff_of_false (by rw [hok]; simp) h,
      iff_of_true h ⟨⟨s⟩, hok, rfl⟩⟩

/-! ## Claim C8: dash normalization is total and idempotent -/

/-- C8: `CrateName::normalize_dashes` always succeeds, replaces exactly the hyphens
of the input by underscores (pointwise, preserving length), and is idempotent
on its own output. -/
theorem normalize_dashes_total_idempotent (s : Str) :
    (CrateName.normalize_dashes s).text.length = s.length ∧
    (∀ i : Nat, ((CrateName.normalize_dashes s).text)[i]? =
      (s[i]?).map (fun c => if c = '-' then '_' else c)) ∧
    CrateName.normalize_dashes ((CrateName.normalize_dashes s).text) =
      CrateName.normalize_dashes s := by
  refine ⟨by simp [CrateName.normalize_dashes],
    fun i => by simp [CrateName.normalize_dashes], ?_⟩
  have hff : ∀ c : Char,
      (if (if c = '-' then '_' else c) = '-' then '_' else (if c = '-' then '_' else c)) =
        (if c = '-' then '_' else c) := by
    intro c
    by_cases hc : c = '-' <;> simp [hc]
  simp only [CrateName.normalize_dashes, CrateName.mk.injEq, List.map_map]
  exact List.map_congr_left (fun c _ => hff c)

/-! ## Claim C9: edition parse/render round trip -/

/-- C9: `Edition::from_str` succeeds exactly on the literals "2015" and "2018",
yields the matching variant, fails otherwise with the invalid text, and
rendering then parsing is the identity on both variants. -/
theorem edition_round_trip :
    (∀ s : Str, (Edition.from_str s = Except.ok Edition.Edition2015 ↔ s = "2015".data) ∧
      (Edition.from_str s = Except.ok Edition.Edition2018 ↔ s = "2018".data) ∧
      (Edition.from_str s = Except.error ⟨s⟩ ↔ (s ≠ "2015".data ∧ s ≠ "2018".data))) ∧
    (∀ e : Edition, Edition.from_str (Edition.fmt e) = Except.ok e) := by
  constructor
  · intro s
    by_cases h15 : s = "2015".data
    · subst h15
      refine ⟨?_, ?_, ?_⟩ <;> simp [Edition.from_str]
    · by_cases h18 : s = "2018".data
      · subst h18
        refine ⟨?_, ?_, ?_⟩ <;> simp [Edition.from_str]
      · refine ⟨?_, ?_, ?_⟩ <;> simp [Edition.from_str, h15, h18]
  · intro e
    cases e <;> simp [Edition.fmt, Edition.from_str]

/-! ## Concrete reachable graphs for witnesses -/

theorem sampleG1_reachable : Reachable sampleG1 :=
  @Reachable.add_root ⟨[]⟩ ⟨1⟩ Edition.Edition2018 none ⟨0⟩ ⟨[]⟩ ⟨[]⟩ [] 0 sampleG1
    Reachable.empty rfl

theorem sampleG2_reachable : Reachable sampleG2 :=
  @Reachable.add_root sampleG1 ⟨2⟩ Edition.Edition2018 none ⟨0⟩ ⟨[]⟩ ⟨[]⟩ [] 1 sampleG2
    sampleG1_reachable rfl

theorem sampleG2_add_dep_eq :
    CrateGraph.add_dep sampleG2 0 ⟨"b".data⟩ 1 = some (Except.ok (), sampleG2b) := by
  simp [CrateGraph.add_dep, CrateGraph.dfs_find, CrateGraph.dfs_each, sampleG2, sampleG2b,
    sampleData, arenaLookup, arenaInsert, CrateData.add_dep]

theorem sampleG2b_reachable : Reachable sampleG2b :=
  @Reachable.add_dep sampleG2 0 1 ⟨"b".data⟩ sampleG2b sampleG2_reachable sampleG2_add_dep_eq

theorem sampleG2b_add_dep_err :
    CrateGraph.add_dep sampleG2b 1 ⟨"a".data⟩ 0 = some (Except.error ⟨⟩, sampleG2b) := by
  simp [CrateGraph.add_dep, CrateGraph.dfs_find, CrateGraph.dfs_each, sampleG2b,
    sampleData, arenaLookup]

/-! ## Claim C3: atomicity of failed edge insertion -/

/-- C3: on an API-built graph, whenever `add_dep` returns the cyclic-dependency
error, the graph after the call equals the graph before it (the failure path
returns before any mutation). -/
theorem add_dep_error_atomic (g : CrateGraph) (hg : Reachable g) (frm tgt : Nat)
    (n : CrateName) (g1 : CrateGraph)
    (h : CrateGraph.add_dep g frm n tgt = some (Except.error ⟨⟩, g1)) : g1 = g := by
  unfold CrateGraph.add_dep at h
  split at h
  · cases h
  · simp only [Option.some.injEq, Prod.mk.injEq] at h
    exact h.2.symm
  · split at h
    · cases h
    · simp at h

/-- Witness for C3: the cyclic-dependency error is actually reachable (adding
`1 → 0` to the graph with edge `0 → 1` fails) and the theorem applies there. -/
theorem add_dep_error_atomic_witness :
    CrateGraph.add_dep sampleG2b 1 ⟨"a".data⟩ 0 = some (Except.error ⟨⟩, sampleG2b) ∧
      sampleG2b = sampleG2b :=
  ⟨sampleG2b_add_dep_err,
    add_dep_error_atomic sampleG2b sampleG2b_reachable 1 0 ⟨"a".data⟩ sampleG2b
      sampleG2b_add_dep_err⟩

/-! ## Claims C1 and C2: the self-loop escapes the cycle check

`dfs_find(from, to, ∅)` only reports `from` reachable from `to` through at
least one existing edge; when `from = to` and `from` has no edge back to
itself yet, it returns `false`, so `add_dep(from, name, from)` succeeds and
records a self-edge — a one-node dependency cycle. -/

/-- C1 (violated by the code): starting from the empty graph, one successful
`add_crate_root` followed by the successful call `add_dep 0 "x" 0` yields a
graph whose dependency relation has the cycle `0 → 0`. -/
theorem self_loop_breaks_acyclicity :
    CrateGraph.add_crate_root ⟨[]⟩ ⟨1⟩ Edition.Edition2018 none ⟨0⟩ ⟨[]⟩ ⟨[]⟩ [] =
      some (0, sampleG1) ∧
    CrateGraph.add_dep sampleG1 0 ⟨"x".data⟩ 0 = some (Except.ok (), sampleG1Loop) ∧
    Relation.TransGen (CrateGraph.dependsOn sampleG1Loop) 0 0 := by
  refine ⟨rfl, ?_, ?_⟩
  · simp [CrateGraph.add_dep, CrateGraph.dfs_find, CrateGraph.dfs_each, sampleG1, sampleG1Loop,
      sampleData, arenaLookup, arenaInsert, CrateData.add_dep]
  · exact Relation.TransGen.single
      ⟨{ sampleData 1 with dependencies := [⟨0, "x".data⟩] },
        by simp [sampleG1Loop, arenaLookup], ⟨0, "x".data⟩, by simp, rfl⟩

/-- C2 (violated by the code): the direct self-loop `add_dep 0 "x" 0` on the
one-crate graph returns `Ok` and stores the edge instead of returning the
cyclic-dependency error. -/
theorem self_loop_not_rejected :
    CrateGraph.add_dep sampleG1 0 ⟨"x".data⟩ 0 = some (Except.ok (), sampleG1Loop) := by
  simp [CrateGraph.add_dep, CrateGraph.dfs_find, CrateGraph.dfs_each, sampleG1, sampleG1Loop,
    sampleData, arenaLookup, arenaInsert, CrateData.add_dep]

/-! ## DFS soundness: a `true` answer exhibits a dependency path -/

theorem dfs_sound_aux (g : CrateGraph) (t : Nat) :
    ∀ fuel : Nat,
      (∀ s vis v, CrateGraph.dfs_find g t fuel s vis = some (true, v) →
        Relation.TransGen (CrateGraph.dependsOn g) s t) ∧
      (∀ deps vis v, CrateGraph.dfs_each g t fuel deps vis = some (true, v) →
        ∃ dep ∈ deps, dep.crate_id = t ∨
          Relation.TransGen (CrateGraph.dependsOn g) dep.crate_id t) := by
  intro fuel
  induction fuel with
  | zero =>
    constructor
    · intro s vis v h
      simp [CrateGraph.dfs_find] at h
    · intro deps vis v h
      cases deps with
      | nil => simp [CrateGraph.dfs_each] at h
      | cons dep rest =>
        by_cases hd : dep.crate_id = t
        · exact ⟨dep, List.mem_cons_self _ _, Or.inl hd⟩
        · simp only [CrateGraph.dfs_each, if_neg hd, CrateGraph.dfs_find] at h
          cases h
  | succ n ih =>
    have hfind : ∀ s vis v, CrateGraph.dfs_find g t (n + 1) s vis = some (true, v) →
        Relation.TransGen (CrateGraph.dependsOn g) s t := by
      intro s vis v h
      simp only [CrateGraph.dfs_find] at h
      by_cases hs : s ∈ vis
      · rw [if_pos hs] at h
        simp at h
      · rw [if_neg hs] at h
        cases hl : arenaLookup g.arena s with
        | none => rw [hl] at h; cases h
        | some data =>
          rw [hl] at h
          obtain ⟨dep, hmem, hcase⟩ := ih.2 data.dependencies (s :: vis) v h
          have hedge : CrateGraph.dependsOn g s dep.crate_id := ⟨data, hl, dep, hmem, rfl⟩
          rcases hcase with hidt | htg
          · exact Relation.TransGen.single (hidt ▸ hedge)
          · exact Relation.TransGen.head hedge htg
    refine ⟨hfind, ?_⟩
    intro deps
    induction deps with
    | nil =>
      intro vis v h
      simp [CrateGraph.dfs_each] at h
    | cons dep rest ihd =>
      intro vis v h
      by_cases hd : dep.crate_id = t
      · exact ⟨dep, List.mem_cons_self _ _, Or.inl hd⟩
      · simp only [CrateGraph.dfs_each, if_neg hd] at h
        cases hf : CrateGraph.dfs_find g t (n + 1) dep.crate_id vis with
        | none => rw [hf] at h; cases h
        | some r =>
          rw [hf] at h
          obtain ⟨found, vis1⟩ := r
          cases found
          · simp only [Bool.false_eq_true, if_neg] at h
            obtain ⟨dep2, hm2, hc2⟩ := ihd vis1 v h
            exact ⟨dep2, List.mem_cons_of_mem _ hm2, hc2⟩
          · exact ⟨dep, List.mem_cons_self _ _, Or.inr (hfind dep.crate_id vis vis1 hf)⟩

/-! ## DFS totality: the fuel `size + 1` never runs out on well-formed graphs -/

theorem unvisited_le_of_subset (g : CrateGraph) {vis vis1 : List Nat}
    (h : ∀ x ∈ vis, x ∈ vis1) :
    CrateGraph.unvisited g vis1 ≤ CrateGraph.unvisited g vis := by
  unfold CrateGraph.unvisited
  apply List.countP_mono_left
  intro a _ ha
  have h1 : a ∉ vis1 := by simpa using ha
  have h2 : a ∉ vis := fun hm => h1 (h a hm)
  simpa using h2

theorem unvisited_lt_cons (g : CrateGraph) {s : Nat} {vis : List Nat}
    (hs : s ∈ CrateGraph.keys g) (hns : s ∉ vis) :
    CrateGraph.unvisited g (s :: vis) < CrateGraph.unvisited g vis := by
  unfold CrateGraph.unvisited
  have hmono : ∀ l : List Nat,
      l.countP (fun k => !((s :: vis).contains k)) ≤ l.countP (fun k => !(vis.contains k)) := by
    intro l
    apply List.countP_mono_left
    intro a _ ha
    have h1 : a ∉ s :: vis := by simpa using ha
    have h2 : a ∉ vis := fun hm => h1 (List.mem_cons_of_mem _ hm)
    simpa using h2
  have hone : (if (true : Bool) = true then 1 else 0) = 1 := rfl
  have hzero : (if (false : Bool) = true then 1 else 0) = 0 := rfl
  generalize hl : CrateGraph.keys g = l at hs
  clear hl
  induction l with
  | nil => simp at hs
  | cons a rest ih =>
    rw [List.countP_cons, List.countP_cons]
    rcases List.mem_cons.1 hs with ha | ha
    · have hpa : (!(vis.contains a)) = true := by
        rw [← ha]
        simpa using hns
      have hqa : (!((s :: vis).contains a)) = false := by
        rw [← ha]
        simp
      rw [hpa, hqa]
      have := hmono rest
      simp at this ⊢ <;> omega
    · by_cases hin : a ∈ vis
      · have hpa : (!(vis.contains a)) = false := by simpa using hin
        have hqa : (!((s :: vis).contains a)) = false := by
          simp [List.mem_cons_of_mem _ hin]
        rw [hpa, hqa]
        have := ih ha
        simp at this ⊢ <;> omega
      · have hpa : (!(vis.contains a)) = true := by simpa using hin
        rw [hpa]
        have := ih ha
        by_cases hsa : a = s
        · have hqa : (!((s :: vis).contains a)) = false := by simp [hsa]
          rw [hqa]
          simp at this ⊢ <;> omega
        · have hqa : (!((s :: vis).contains a)) = true := by simp [hsa, hin]
          rw [hqa]
          simp at this ⊢ <;> omega

theorem dfs_total_aux (g : CrateGraph)
    (hdeps : ∀ p ∈ g.arena, ∀ dep ∈ (p.2).dependencies, dep.crate_id ∈ CrateGraph.keys g)
    (t : Nat) :
    ∀ fuel : Nat,
      (∀ s vis, CrateGraph.unvisited g vis < fuel → (s ∈ vis ∨ s ∈ CrateGraph.keys g) →
        ∃ b v, CrateGraph.dfs_find g t fuel s vis = some (b, v) ∧ ∀ x ∈ vis, x ∈ v) ∧
      (∀ deps vis, (∀ dep ∈ deps, dep.crate_id ∈ CrateGraph.keys g) →
        CrateGraph.unvisited g vis < fuel →
        ∃ b v, CrateGraph.dfs_each g t fuel deps vis = some (b, v) ∧ ∀ x ∈ vis, x ∈ v) := by
  intro fuel
  induction fuel with
  | zero =>
    constructor
    · intro s vis hlt
      omega
    · intro deps vis _ hlt
      omega
  | succ n ih =>
    have hfind : ∀ s vis, CrateGraph.unvisited g vis < n + 1 →
        (s ∈ vis ∨ s ∈ CrateGraph.keys g) →
        ∃ b v, CrateGraph.dfs_find g t (n + 1) s vis = some (b, v) ∧ ∀ x ∈ vis, x ∈ v := by
      intro s vis hlt hs
      by_cases hsv : s ∈ vis
      · refine ⟨false, vis, ?_, fun x hx => hx⟩
        simp [CrateGraph.dfs_find, hsv]
      · have hsk : s ∈ CrateGraph.keys g := hs.resolve_left hsv
        have hlook : (arenaLookup g.arena s).isSome = true :=
          (arenaLookup_isSome_iff g.arena s).2 hsk
        cases hl : arenaLookup g.arena s with
        | none => rw [hl] at hlook; cases hlook
        | some data =>
          have hdv : ∀ dep ∈ data.dependencies, dep.crate_id ∈ CrateGraph.keys g :=
            hdeps (s, data) (arenaLookup_mem hl)
          have hlt1 : CrateGraph.unvisited g (s :: vis) < n := by
            have := unvisited_lt_cons g hsk hsv
            omega
          obtain ⟨b, v, heq, hsub⟩ := ih.2 data.dependencies (s :: vis) hdv hlt1
          refine ⟨b, v, ?_, fun x hx => hsub x (List.mem_cons_of_mem _ hx)⟩
          simp only [CrateGraph.dfs_find, if_neg hsv, hl]
          exact heq
    refine ⟨hfind, ?_⟩
    intro deps
    induction deps with
    | nil =>
      intro vis _ _
      exact ⟨false, vis, by simp [CrateGraph.dfs_each], fun x hx => hx⟩
    | cons dep rest ihd =>
      intro vis hdv hlt
      by_cases hd : dep.crate_id = t
      · exact ⟨true, vis, by simp [CrateGraph.dfs_each, hd], fun x hx => hx⟩
      · have hdk : dep.crate_id ∈ CrateGraph.keys g := hdv dep (List.mem_cons_self _ _)
        obtain ⟨b1, v1, heq1, hsub1⟩ := hfind dep.crate_id vis hlt (Or.inr hdk)
        cases b1 with
        | true =>
          refine ⟨true, v1, ?_, hsub1⟩
          simp [CrateGraph.dfs_each, if_neg hd, heq1]
        | false =>
          have hdv1 : ∀ d ∈ rest, d.crate_id ∈ CrateGraph.keys g :=
            fun d hdm => hdv d (List.mem_cons_of_mem _ hdm)
          have hlt1 : CrateGraph.unvisited g v1 < n + 1 :=
            lt_of_le_of_lt (unvisited_le_of_subset g hsub1) hlt
          obtain ⟨b2, v2, heq2, hsub2⟩ := ihd v1 hdv1 hlt1
          refine ⟨b2, v2, ?_, fun x hx => hsub2 x (hsub1 x hx)⟩
          simp only [CrateGraph.dfs_each, if_neg hd, heq1]
          exact heq2

/-! ## Shape lemmas for the mutating operations -/

theorem dfs_find_some_mem (g : CrateGraph) {t s : Nat} {vis : List Nat} {fuel : Nat}
    {r : Bool × List Nat} (h : CrateGraph.dfs_find g t (fuel + 1) s vis = some r) :
    s ∈ vis ∨ s ∈ CrateGraph.keys g := by
  simp only [CrateGraph.dfs_find] at h
  by_cases hs : s ∈ vis
  · exact Or.inl hs
  · rw [if_neg hs] at h
    cases hl : arenaLookup g.arena s with
    | none => rw [hl] at h; cases h
    | some data =>
      right
      have hsm : (arenaLookup g.arena s).isSome = true := by rw [hl]; rfl
      exact (arenaLookup_isSome_iff g.arena s).1 hsm

theorem add_crate_root_wf (g : CrateGraph) (hWF : WF g) (f : FileId) (e : Edition)
    (dn : Option CrateName) (cfg : CfgOptions) (env : Env) (ext : ExternSource)
    (pm : List (Str × Nat)) :
    CrateGraph.add_crate_root g f e dn cfg env ext pm =
      some (g.arena.length,
        ⟨g.arena ++ [(g.arena.length,
          ⟨f, e, dn, cfg, env, ext, [], pm.map (fun p => ProcMacro.mk p.1 p.2)⟩)]⟩) := by
  have hnot : (g.arena.length : Nat) ∉ CrateGraph.keys g := by
    intro hmem
    exact absurd ((hWF.contiguous _).1 hmem) (lt_irrefl _)
  have hnone : arenaLookup g.arena g.arena.length = none :=
    (arenaLookup_eq_none_iff _ _).2 hnot
  have hins := arenaInsert_not_mem
    (⟨f, e, dn, cfg, env, ext, [], pm.map (fun p => ProcMacro.mk p.1 p.2)⟩ : CrateData) hnot
  simp only [CrateGraph.add_crate_root, hnone, Option.isSome_none, Bool.false_eq_true,
    if_false, hins]

theorem foldl_arenaInsert_fresh (f : (Nat × CrateData) → (Nat × CrateData)) :
    ∀ (l acc : List (Nat × CrateData)),
      (∀ k ∈ (l.map f).map Prod.fst, k ∉ acc.map Prod.fst) → ((l.map f).map Prod.fst).Nodup →
      List.foldl (fun a p => arenaInsert a (f p).1 (f p).2) acc l = acc ++ l.map f := by
  intro l
  induction l with
  | nil =>
    intro acc _ _
    simp
  | cons p rest ih =>
    intro acc hfresh hnd
    rw [List.foldl_cons, arenaInsert_not_mem (f p).2 (hfresh (f p).1 (by simp))]
    have hnd0 : ((f p).1 :: (rest.map f).map Prod.fst).Nodup := by
      simpa only [List.map_cons] using hnd
    have hnotin : (f p).1 ∉ (rest.map f).map Prod.fst := (List.nodup_cons.1 hnd0).1
    have hnd1 : ((rest.map f).map Prod.fst).Nodup := (List.nodup_cons.1 hnd0).2
    have hfresh1 : ∀ k ∈ (rest.map f).map Prod.fst, k ∉ (acc ++ [((f p).1, (f p).2)]).map Prod.fst := by
      intro k hk
      simp only [List.map_append, List.mem_append, List.map_cons, List.map_nil,
        List.mem_singleton]
      push_neg
      refine ⟨hfresh k ?_, ?_⟩
      · simp only [List.map_cons, List.mem_cons]
        exact Or.inr hk
      · intro hkp
        rw [hkp] at hk
        exact absurd hk hnotin
    rw [ih (acc ++ [((f p).1, (f p).2)]) hfresh1 hnd1]
    simp

theorem extend_arena (g h2 : CrateGraph) (hg : WF g) (hh : WF h2) :
    (CrateGraph.extend g h2).2.arena =
      g.arena ++ h2.arena.map (shiftPair g.arena.length) := by
  have hkeys : ((h2.arena.map (shiftPair g.arena.length)).map Prod.fst) =
      (CrateGraph.keys h2).map (fun k => k + g.arena.length) := by
    simp only [CrateGraph.keys, List.map_map]
    rfl
  have hfresh : ∀ k ∈ (h2.arena.map (shiftPair g.arena.length)).map Prod.fst,
      k ∉ g.arena.map Prod.fst := by
    intro k hk
    rw [hkeys] at hk
    obtain ⟨j, _, hj⟩ := List.mem_map.1 hk
    intro hmem
    have hj1 : j + g.arena.length = k := hj
    have hlt : k < g.arena.length := (hg.contiguous k).1 hmem
    exact absurd hlt (not_lt.2 (by omega))
  have hnd : ((h2.arena.map (shiftPair g.arena.length)).map Prod.fst).Nodup := by
    rw [hkeys]
    have hinj : Function.Injective (fun k : Nat => k + g.arena.length) := by
      intro a b hab
      simpa using hab
    exact hh.nodup.map hinj
  exact foldl_arenaInsert_fresh (shiftPair g.arena.length) h2.arena g.arena hfresh hnd

theorem add_dep_ok_shape {g : CrateGraph} {frm tgt : Nat} {n : CrateName} {g1 : CrateGraph}
    (h : CrateGraph.add_dep g frm n tgt = some (Except.ok (), g1)) :
    ∃ d v, CrateGraph.dfs_find g frm (g.arena.length + 1) tgt [] = some (false, v) ∧
      arenaLookup g.arena frm = some d ∧
      g1 = ⟨arenaInsert g.arena frm (CrateData.add_dep d n.text tgt)⟩ := by
  unfold CrateGraph.add_dep at h
  split at h
  · cases h
  · simp at h
  · rename_i v heq
    split at h
    · cases h
    · rename_i d hd
      simp only [Option.some.injEq, Prod.mk.injEq, true_and] at h
      exact ⟨d, v, heq, hd, h.symm⟩

theorem shiftPair_keys (h0 : CrateGraph) (start : Nat) :
    (h0.arena.map (shiftPair start)).map Prod.fst =
      (CrateGraph.keys h0).map (fun k => k + start) := by
  simp only [CrateGraph.keys, List.map_map]
  rfl

theorem reachable_wf : ∀ {g : CrateGraph}, Reachable g → WF g := by
  intro g h
  induction h with
  | empty =>
    refine ⟨?_, ?_, ?_⟩
    · intro k
      simp [CrateGraph.keys]
    · simp [CrateGraph.keys]
    · intro p hp
      simp at hp
  | add_root hr heq ih =>
    rename_i g0 f e dn cfg env ext pm i g1
    rw [add_crate_root_wf g0 ih f e dn cfg env ext pm] at heq
    simp only [Option.some.injEq, Prod.mk.injEq] at heq
    obtain ⟨hi, hg1⟩ := heq
    subst hg1
    refine ⟨?_, ?_, ?_⟩
    · intro k
      have hc := ih.contiguous k
      simp only [CrateGraph.keys] at hc ⊢
      simp only [List.map_append, List.map_cons, List.map_nil, List.mem_append,
        List.mem_singleton, List.length_append, List.length_cons, List.length_nil]
      constructor
      · rintro (hk | hk)
        · have := hc.1 hk
          omega
        · omega
      · intro hk
        by_cases hkL : k = g0.arena.length
        · exact Or.inr hkL
        · exact Or.inl (hc.2 (by omega))
    · have hnd := ih.nodup
      simp only [CrateGraph.keys] at hnd ⊢
      simp only [List.map_append, List.map_cons, List.map_nil]
      refine List.Nodup.append hnd (by simp) ?_
      intro x hx hx2
      simp at hx2
      rw [hx2] at hx
      have := ih.contiguous g0.arena.length
      simp only [CrateGraph.keys] at this
      exact absurd (this.1 hx) (lt_irrefl _)
    · intro p hp dep hdep
      simp only [List.length_append, List.length_cons, List.length_nil]
      rcases List.mem_append.1 hp with hp1 | hp1
      · have := ih.deps_valid p hp1 dep hdep
        omega
      · simp only [List.mem_singleton] at hp1
        subst hp1
        simp at hdep
  | add_dep hr heq ih =>
    rename_i g0 frm tgt n2 g1
    obtain ⟨d, v, hdfs, hd, hg1⟩ := add_dep_ok_shape heq
    subst hg1
    have hfrm : frm ∈ CrateGraph.keys g0 := by
      have hs : (arenaLookup g0.arena frm).isSome = true := by rw [hd]; rfl
      exact (arenaLookup_isSome_iff _ _).1 hs
    have htgt : tgt ∈ CrateGraph.keys g0 := by
      rcases dfs_find_some_mem g0 hdfs with hmem | hmem
      · simp at hmem
      · exact hmem
    have hkeyseq : (arenaInsert g0.arena frm (CrateData.add_dep d n2.text tgt)).map Prod.fst =
        g0.arena.map Prod.fst := arenaInsert_map_fst_mem _ hfrm
    have hlen : (arenaInsert g0.arena frm (CrateData.add_dep d n2.text tgt)).length =
        g0.arena.length := arenaInsert_length_mem _ hfrm
    refine ⟨?_, ?_, ?_⟩
    · intro k
      have hc := ih.contiguous k
      simp only [CrateGraph.keys] at hc ⊢
      rw [hkeyseq, hlen]
      exact hc
    · have hnd := ih.nodup
      simp only [CrateGraph.keys] at hnd ⊢
      rw [hkeyseq]
      exact hnd
    · intro p hp dep hdep
      have hlen2 : (⟨arenaInsert g0.arena frm (CrateData.add_dep d n2.text tgt)⟩ :
          CrateGraph).arena.length = g0.arena.length := hlen
      rw [hlen2]
      rcases arenaInsert_mem hp with hp1 | hp1
      · subst hp1
        simp only [CrateData.add_dep] at hdep
        rcases List.mem_append.1 hdep with hd1 | hd1
        · exact ih.deps_valid (frm, d) (arenaLookup_mem hd) dep hd1
        · simp only [List.mem_singleton] at hd1
          subst hd1
          exact (ih.contiguous tgt).1 htgt
      · exact ih.deps_valid p hp1 dep hdep
  | extend hr1 hr2 heq ih1 ih2 =>
    rename_i g0 h0 st g1
    have harena := extend_arena g0 h0 ih1 ih2
    rw [heq] at harena
    have hg1 : g1.arena = g0.arena ++ h0.arena.map (shiftPair g0.arena.length) := harena
    have hlen : g1.arena.length = g0.arena.length + h0.arena.length := by
      rw [hg1]
      simp
    have hkeys1 : CrateGraph.keys g1 =
        (CrateGraph.keys g0) ++ (CrateGraph.keys h0).map (fun k => k + g0.arena.length) := by
      simp only [CrateGraph.keys, hg1, List.map_append]
      rw [shiftPair_keys]
      rfl
    refine ⟨?_, ?_, ?_⟩
    · intro k
      rw [hkeys1, hlen, List.mem_append]
      have hc0 := ih1.contiguous k
      constructor
      · rintro (hk | hk)
        · have := hc0.1 hk
          omega
        · obtain ⟨j, hj, hjk⟩ := List.mem_map.1 hk
          have hj1 : (j : Nat) + g0.arena.length = k := hjk
          have := (ih2.contiguous j).1 hj
          omega
      · intro hk
        by_cases hkL : k < g0.arena.length
        · exact Or.inl (hc0.2 hkL)
        · refine Or.inr (List.mem_map.2 ⟨k - g0.arena.length, ?_, by omega⟩)
          exact (ih2.contiguous _).2 (by omega)
    · rw [hkeys1]
      have hinj : Function.Injective (fun k : Nat => k + g0.arena.length) := by
        intro a b hab
        simpa using hab
      refine List.Nodup.append ih1.nodup (ih2.nodup.map hinj) ?_
      intro x hx hx2
      obtain ⟨j, hj, hjk⟩ := List.mem_map.1 hx2
      have hj1 : (j : Nat) + g0.arena.length = x := hjk
      have := (ih1.contiguous x).1 hx
      omega
    · intro p hp dep hdep
      rw [hlen]
      rw [hg1] at hp
      rcases List.mem_append.1 hp with hp1 | hp1
      · have := ih1.deps_valid p hp1 dep hdep
        omega
      · obtain ⟨q, hq, hqp⟩ := List.mem_map.1 hp1
        subst hqp
        simp only [shiftPair] at hdep
        obtain ⟨orig, horig, hdo⟩ := List.mem_map.1 hdep
        subst hdo
        have := ih2.deps_valid q hq orig horig
        simp only [CrateId.shift]
        omega

theorem arenaLookup_append_left {a : List (Nat × CrateData)} {k : Nat}
    (b : List (Nat × CrateData)) (h : (arenaLookup a k).isSome = true) :
    arenaLookup (a ++ b) k = arenaLookup a k := by
  rw [arenaLookup_append]
  cases hl : arenaLookup a k with
  | none => rw [hl] at h; cases h
  | some v => rfl

theorem arenaLookup_append_right {a : List (Nat × CrateData)} {k : Nat}
    (b : List (Nat × CrateData)) (h : arenaLookup a k = none) :
    arenaLookup (a ++ b) k = arenaLookup b k := by
  rw [arenaLookup_append, h]

/-! ## Claim C10: id contiguity and the defensive assertion -/

/-- C10: every graph reachable through the construction API has id set exactly
`{0, ..., size-1}`, so the duplicate-id assertion inside `add_crate_root`
can never fire on such a graph: the call always returns a value. -/
theorem reachable_ids_contiguous (g : CrateGraph) (hg : Reachable g) :
    (∀ k : Nat, k ∈ CrateGraph.keys g ↔ k < g.arena.length) ∧
    ∀ (f : FileId) (e : Edition) (dn : Option CrateName) (cfg : CfgOptions) (env : Env)
      (ext : ExternSource) (pm : List (Str × Nat)),
      (CrateGraph.add_crate_root g f e dn cfg env ext pm).isSome = true := by
  have hWF := reachable_wf hg
  refine ⟨hWF.contiguous, ?_⟩
  intro f e dn cfg env ext pm
  rw [add_crate_root_wf g hWF f e dn cfg env ext pm]
  rfl

/-- Witness for C10 at the concrete one-crate graph. -/
theorem reachable_ids_contiguous_witness :
    (0 ∈ CrateGraph.keys sampleG1 ↔ 0 < sampleG1.arena.length) ∧
    (CrateGraph.add_crate_root sampleG1 ⟨9⟩ Edition.Edition2015 none ⟨0⟩ ⟨[]⟩ ⟨[]⟩ []).isSome
      = true :=
  ⟨(reachable_ids_contiguous sampleG1 sampleG1_reachable).1 0,
    (reachable_ids_contiguous sampleG1 sampleG1_reachable).2 ⟨9⟩ Edition.Edition2015 none
      ⟨0⟩ ⟨[]⟩ ⟨[]⟩ []⟩

/-! ## Claim C6: sequential id allocation -/

/-- C6: on an API-built graph, `add_crate_root` always succeeds, returns the size
of the graph before the call as the new id, stores under that id a record with
an empty dependency list whose fields are exactly the supplied arguments, and
leaves every other stored record unchanged (ids are allocated sequentially, so
they strictly increase and are never reused). -/
theorem add_crate_root_allocates (g : CrateGraph) (hg : Reachable g) (f : FileId) (e : Edition)
    (dn : Option CrateName) (cfg : CfgOptions) (env : Env) (ext : ExternSource)
    (pm : List (Str × Nat)) :
    ∃ g1, CrateGraph.add_crate_root g f e dn cfg env ext pm = some (g.arena.length, g1) ∧
      g1.arena.length = g.arena.length + 1 ∧
      arenaLookup g1.arena g.arena.length =
        some ⟨f, e, dn, cfg, env, ext, [], pm.map (fun p => ProcMacro.mk p.1 p.2)⟩ ∧
      ∀ k : Nat, k ≠ g.arena.length → arenaLookup g1.arena k = arenaLookup g.arena k := by
  have hWF := reachable_wf hg
  have hnone : arenaLookup g.arena g.arena.length = none := by
    rw [arenaLookup_eq_none_iff]
    intro hmem
    exact absurd ((hWF.contiguous _).1 hmem) (lt_irrefl _)
  refine ⟨_, add_crate_root_wf g hWF f e dn cfg env ext pm, by simp, ?_, ?_⟩
  · rw [arenaLookup_append_right _ hnone]
    simp [arenaLookup]
  · intro k hk
    cases hl : arenaLookup g.arena k with
    | none =>
      rw [arenaLookup_append_right _ hl]
      have hLk : ¬ g.arena.length = k := fun h => hk h.symm
      simp [arenaLookup, hLk, hl]
    | some v =>
      rw [arenaLookup_append_left _ (by rw [hl]; rfl), hl]

/-- Witness for C6 at the concrete one-crate graph. -/
theorem add_crate_root_allocates_witness :
    ∃ g1, CrateGraph.add_crate_root sampleG1 ⟨9⟩ Edition.Edition2015 none ⟨0⟩ ⟨[]⟩ ⟨[]⟩ [] =
        some (sampleG1.arena.length, g1) ∧
      g1.arena.length = sampleG1.arena.length + 1 ∧
      arenaLookup g1.arena sampleG1.arena.length =
        some ⟨⟨9⟩, Edition.Edition2015, none, ⟨0⟩, ⟨[]⟩, ⟨[]⟩, [], []⟩ ∧
      ∀ k : Nat, k ≠ sampleG1.arena.length →
        arenaLookup g1.arena k = arenaLookup sampleG1.arena k :=
  add_crate_root_allocates sampleG1 sampleG1_reachable ⟨9⟩ Edition.Edition2015 none ⟨0⟩ ⟨[]⟩
    ⟨[]⟩ []

theorem arenaLookup_shifted (l : List (Nat × CrateData)) (L i : Nat) :
    arenaLookup (l.map (shiftPair L)) (i + L) =
      (arenaLookup l i).map (fun d =>
        { d with dependencies :=
            d.dependencies.map (fun dep => { dep with crate_id := dep.crate_id + L }) }) := by
  induction l with
  | nil => simp [arenaLookup]
  | cons p rest ih =>
    by_cases hp : p.1 = i
    · have hc : (shiftPair L p).1 = i + L := by
        simp [shiftPair, CrateId.shift, hp]
      simp only [List.map_cons, arenaLookup, if_pos hc, if_pos hp]
      rfl
    · have hc : ¬ ((shiftPair L p).1 = i + L) := by
        simp only [shiftPair, CrateId.shift]
        omega
      simp only [List.map_cons, arenaLookup, if_neg hc, if_neg hp, ih]

/-! ## Claim C5: merge relabeling -/

/-- C5: merging two API-built graphs of sizes n and m returns the shift n,
produces a graph of size n + m in which the first graph's records are
unchanged, and every crate that had id i in the merged-in graph is now stored
at id i + n with the same record except that each dependency target j is
rewritten to j + n. -/
theorem extend_relabels (g h2 : CrateGraph) (hg : Reachable g) (hh : Reachable h2) :
    (CrateGraph.extend g h2).1 = g.arena.length ∧
    (CrateGraph.extend g h2).2.arena.length = g.arena.length + h2.arena.length ∧
    (∀ k : Nat, k < g.arena.length →
      arenaLookup (CrateGraph.extend g h2).2.arena k = arenaLookup g.arena k) ∧
    (∀ i : Nat, i < h2.arena.length →
      ∃ d, arenaLookup h2.arena i = some d ∧
        arenaLookup (CrateGraph.extend g h2).2.arena (i + g.arena.length) =
          some { d with dependencies :=
            d.dependencies.map (fun dep => { dep with crate_id := dep.crate_id + g.arena.length }) }) := by
  have hWFg := reachable_wf hg
  have hWFh := reachable_wf hh
  have harena := extend_arena g h2 hWFg hWFh
  refine ⟨rfl, ?_, ?_, ?_⟩
  · rw [harena]
    simp
  · intro k hk
    rw [harena]
    have hmem : k ∈ CrateGraph.keys g := (hWFg.contiguous k).2 hk
    exact arenaLookup_append_left _ ((arenaLookup_isSome_iff _ _).2 hmem)
  · intro i hi
    have hmem : i ∈ CrateGraph.keys h2 := (hWFh.contiguous i).2 hi
    have hs : (arenaLookup h2.arena i).isSome = true := (arenaLookup_isSome_iff _ _).2 hmem
    cases hd : arenaLookup h2.arena i with
    | none => rw [hd] at hs; cases hs
    | some d =>
      refine ⟨d, rfl, ?_⟩
      rw [harena]
      have hnone : arenaLookup g.arena (i + g.arena.length) = none := by
        rw [arenaLookup_eq_none_iff]
        intro hmem2
        have := (hWFg.contiguous _).1 hmem2
        omega
      rw [arenaLookup_append_right _ hnone, arenaLookup_shifted, hd]
      rfl

/-- Witness for C5: merging the one-crate graph with itself. -/
theorem extend_relabels_witness :
    (CrateGraph.extend sampleG1 sampleG1).1 = sampleG1.arena.length ∧
    (CrateGraph.extend sampleG1 sampleG1).2.arena.length =
      sampleG1.arena.length + sampleG1.arena.length ∧
    arenaLookup (CrateGraph.extend sampleG1 sampleG1).2.arena 0 = arenaLookup sampleG1.arena 0 ∧
    ∃ d, arenaLookup sampleG1.arena 0 = some d ∧
      arenaLookup (CrateGraph.extend sampleG1 sampleG1).2.arena (0 + sampleG1.arena.length) =
        some { d with dependencies :=
          d.dependencies.map (fun dep =>
            { dep with crate_id := dep.crate_id + sampleG1.arena.length }) } :=
  ⟨(extend_relabels sampleG1 sampleG1 sampleG1_reachable sampleG1_reachable).1,
    (extend_relabels sampleG1 sampleG1 sampleG1_reachable sampleG1_reachable).2.1,
    (extend_relabels sampleG1 sampleG1 sampleG1_reachable sampleG1_reachable).2.2.1 0
      (by decide),
    (extend_relabels sampleG1 sampleG1 sampleG1_reachable sampleG1_reachable).2.2.2 0
      (by decide)⟩

/-! ## Claim C4: non-cycle-closing insertion succeeds and appends -/

theorem dependsOn_insert {g : CrateGraph} {frm : Nat} {d : CrateData} {nm : Str} {tgt : Nat}
    (hd : arenaLookup g.arena frm = some d) {x y : Nat}
    (h : CrateGraph.dependsOn ⟨arenaInsert g.arena frm (CrateData.add_dep d nm tgt)⟩ x y) :
    CrateGraph.dependsOn g x y ∨ (x = frm ∧ y = tgt) := by
  obtain ⟨dx, hlx, dep, hdep, hcid⟩ := h
  by_cases hx : x = frm
  · subst hx
    rw [arenaLookup_insert_self] at hlx
    have hdx : dx = CrateData.add_dep d nm tgt := by
      cases hlx
      rfl
    subst hdx
    simp only [CrateData.add_dep] at hdep
    rcases List.mem_append.1 hdep with h1 | h1
    · exact Or.inl ⟨d, hd, dep, h1, hcid⟩
    · simp only [List.mem_singleton] at h1
      subst h1
      exact Or.inr ⟨rfl, hcid.symm⟩
  · rw [arenaLookup_insert_ne _ _ hx] at hlx
    exact Or.inl ⟨dx, hlx, dep, hdep, hcid⟩

theorem wouldCycle_insert_preserved {g : CrateGraph} {frm tgt : Nat} {d : CrateData} {nm : Str}
    (hd : arenaLookup g.arena frm = some d)
    (hnc : ¬ CrateGraph.wouldCycle g frm tgt) :
    ¬ CrateGraph.wouldCycle ⟨arenaInsert g.arena frm (CrateData.add_dep d nm tgt)⟩ frm tgt := by
  intro hcyc
  have hall : ∀ x : Nat,
      Relation.ReflTransGen
        (CrateGraph.dependsOn ⟨arenaInsert g.arena frm (CrateData.add_dep d nm tgt)⟩) x frm →
      Relation.ReflTransGen (CrateGraph.dependsOn g) x frm := by
    intro x hx
    induction hx using Relation.ReflTransGen.head_induction_on with
    | refl => exact Relation.ReflTransGen.refl
    | head hstep _ ih =>
      rcases dependsOn_insert hd hstep with hstep1 | ⟨hxf, hyt⟩
      · exact Relation.ReflTransGen.head hstep1 ih
      · subst hyt
        exact absurd ih hnc
  exact hnc (hall tgt hcyc)

theorem add_dep_ok_of_not_wouldCycle (g : CrateGraph) (hWF : WF g) (frm tgt : Nat)
    (hf : frm ∈ CrateGraph.keys g) (ht : tgt ∈ CrateGraph.keys g) (n : CrateName)
    (hnc : ¬ CrateGraph.wouldCycle g frm tgt) :
    ∃ d, arenaLookup g.arena frm = some d ∧
      CrateGraph.add_dep g frm n tgt =
        some (Except.ok (), ⟨arenaInsert g.arena frm (CrateData.add_dep d n.text tgt)⟩) := by
  have hdeps : ∀ p ∈ g.arena, ∀ dep ∈ (p.2).dependencies, dep.crate_id ∈ CrateGraph.keys g := by
    intro p hp dep hdep
    exact (hWF.contiguous _).2 (hWF.deps_valid p hp dep hdep)
  have hfuel : CrateGraph.unvisited g [] < g.arena.length + 1 := by
    unfold CrateGraph.unvisited
    have hle := List.countP_le_length (fun k => !(([] : List Nat).contains k))
      (l := CrateGraph.keys g)
    simp only [CrateGraph.keys] at hle ⊢
    have hlen : (g.arena.map Prod.fst).length = g.arena.length := by simp
    omega
  obtain ⟨b, v, heq, _⟩ :=
    (dfs_total_aux g hdeps frm (g.arena.length + 1)).1 tgt [] hfuel (Or.inr ht)
  have hb : b = false := by
    cases b
    · rfl
    · exact absurd
        (Relation.TransGen.to_reflTransGen
          ((dfs_sound_aux g frm (g.arena.length + 1)).1 tgt [] v heq)) hnc
  subst hb
  have hsome : (arenaLookup g.arena frm).isSome = true := (arenaLookup_isSome_iff _ _).2 hf
  cases hd : arenaLookup g.arena frm with
  | none => rw [hd] at hsome; cases hsome
  | some d =>
    refine ⟨d, rfl, ?_⟩
    unfold CrateGraph.add_dep
    rw [heq, hd]

/-- C4: on an API-built graph with valid ids, if inserting `frm → tgt` would not
close a cycle, `add_dep` succeeds and appends exactly the entry `(tgt, name)`
at the end of `frm`'s dependency list, leaving every other record unchanged;
a second call with the same pair but a different name also succeeds and
appends a second, distinct entry. -/
theorem add_dep_appends (g : CrateGraph) (hg : Reachable g) (frm tgt : Nat) (n1 n2 : CrateName)
    (hf : frm < g.arena.length) (ht : tgt < g.arena.length)
    (hnc : ¬ CrateGraph.wouldCycle g frm tgt) (hne : n1 ≠ n2) :
    ∃ d g1 g2,
      arenaLookup g.arena frm = some d ∧
      CrateGraph.add_dep g frm n1 tgt = some (Except.ok (), g1) ∧
      arenaLookup g1.arena frm =
        some { d with dependencies := d.dependencies ++ [⟨tgt, n1.text⟩] } ∧
      (∀ k : Nat, k ≠ frm → arenaLookup g1.arena k = arenaLookup g.arena k) ∧
      CrateGraph.add_dep g1 frm n2 tgt = some (Except.ok (), g2) ∧
      arenaLookup g2.arena frm =
        some { d with dependencies := d.dependencies ++ [⟨tgt, n1.text⟩, ⟨tgt, n2.text⟩] } ∧
      (∀ k : Nat, k ≠ frm → arenaLookup g2.arena k = arenaLookup g.arena k) ∧
      (⟨tgt, n1.text⟩ : Dependency) ≠ ⟨tgt, n2.text⟩ := by
  have hWF := reachable_wf hg
  have hfm : frm ∈ CrateGraph.keys g := (hWF.contiguous frm).2 hf
  have htm : tgt ∈ CrateGraph.keys g := (hWF.contiguous tgt).2 ht
  obtain ⟨d, hd, heq1⟩ := add_dep_ok_of_not_wouldCycle g hWF frm tgt hfm htm n1 hnc
  have hr1 : Reachable ⟨arenaInsert g.arena frm (CrateData.add_dep d n1.text tgt)⟩ :=
    Reachable.add_dep hg heq1
  have hWF1 := reachable_wf hr1
  have hkeys1 : CrateGraph.keys ⟨arenaInsert g.arena frm (CrateData.add_dep d n1.text tgt)⟩ =
      CrateGraph.keys g := arenaInsert_map_fst_mem _ hfm
  have hd1 : arenaLookup (arenaInsert g.arena frm (CrateData.add_dep d n1.text tgt)) frm =
      some (CrateData.add_dep d n1.text tgt) := arenaLookup_insert_self _ _ _
  have hnc1 : ¬ CrateGraph.wouldCycle
      ⟨arenaInsert g.arena frm (CrateData.add_dep d n1.text tgt)⟩ frm tgt :=
    wouldCycle_insert_preserved hd hnc
  obtain ⟨d1, hd1x, heq2⟩ := add_dep_ok_of_not_wouldCycle _ hWF1 frm tgt
    (by rw [hkeys1]; exact hfm) (by rw [hkeys1]; exact htm) n2 hnc1
  have hdd1 : d1 = CrateData.add_dep d n1.text tgt := by
    have hx : some d1 = some (CrateData.add_dep d n1.text tgt) := hd1x.symm.trans hd1
    cases hx
    rfl
  subst hdd1
  have hnedep : (⟨tgt, n1.text⟩ : Dependency) ≠ ⟨tgt, n2.text⟩ := by
    intro hdd
    apply hne
    have htext : n1.text = n2.text := by simpa using hdd
    cases n1
    cases n2
    simpa using htext
  refine ⟨d, _, _, hd, heq1, hd1, ?_, heq2, ?_, ?_, hnedep⟩
  · intro k hk
    exact arenaLookup_insert_ne _ _ hk
  · refine Eq.trans (arenaLookup_insert_self _ _ _) ?_
    simp [CrateData.add_dep]
  · intro k hk
    exact Eq.trans (arenaLookup_insert_ne _ _ hk) (arenaLookup_insert_ne _ _ hk)

/-- Witness for C4: adding `0 → 1` twice with the names "x" and "y" on the
two-crate graph. -/
theorem add_dep_appends_witness :
    ∃ d g1 g2,
      arenaLookup sampleG2.arena 0 = some d ∧
      CrateGraph.add_dep sampleG2 0 ⟨"x".data⟩ 1 = some (Except.ok (), g1) ∧
      arenaLookup g1.arena 0 =
        some { d with dependencies := d.dependencies ++ [⟨1, "x".data⟩] } ∧
      (∀ k : Nat, k ≠ 0 → arenaLookup g1.arena k = arenaLookup sampleG2.arena k) ∧
      CrateGraph.add_dep g1 0 ⟨"y".data⟩ 1 = some (Except.ok (), g2) ∧
      arenaLookup g2.arena 0 =
        some { d with dependencies := d.dependencies ++ [⟨1, "x".data⟩, ⟨1, "y".data⟩] } ∧
      (∀ k : Nat, k ≠ 0 → arenaLookup g2.arena k = arenaLookup sampleG2.arena k) ∧
      (⟨1, "x".data⟩ : Dependency) ≠ ⟨1, "y".data⟩ :=
  add_dep_appends sampleG2 sampleG2_reachable 0 1 ⟨"x".data⟩ ⟨"y".data⟩ (by decide) (by decide)
    (by
      intro hcyc
      rcases Relation.ReflTransGen.cases_head hcyc with h1 | ⟨z, hz, _⟩
      · cases h1
      · obtain ⟨dz, hdz, dep, hdep, _⟩ := hz
        have hdz2 : dz = sampleData 2 := by
          have hx : some dz = some (sampleData 2) := by
            rw [← hdz]
            simp [sampleG2, arenaLookup]
          cases hx
          rfl
        subst hdz2
        simp [sampleData] at hdep)
    (by
      intro hxy
      have := congrArg CrateName.text hxy
      simp at this)

/-- Witness for C7 at the concrete inputs "a-b" (rejected) and "ab" (accepted). -/
theorem crate_name_validation_witness :
    ((CrateName.new "a-b".data = Except.error "a-b".data ↔ '-' ∈ "a-b".data) ∧
      ((∃ e, CrateName.new "a-b".data = Except.error e) ↔ '-' ∈ "a-b".data) ∧
      ('-' ∉ "a-b".data ↔ ∃ c, CrateName.new "a-b".data = Except.ok c ∧
        CrateName.fmt c = "a-b".data)) ∧
    ((CrateName.new "ab".data = Except.error "ab".data ↔ '-' ∈ "ab".data) ∧
      ((∃ e, CrateName.new "ab".data = Except.error e) ↔ '-' ∈ "ab".data) ∧
      ('-' ∉ "ab".data ↔ ∃ c, CrateName.new "ab".data = Except.ok c ∧
        CrateName.fmt c = "ab".data)) :=
  ⟨crate_name_validation "a-b".data, crate_name_validation "ab".data⟩

/-- Witness for C8 at the concrete input "a-b". -/
theorem normalize_dashes_total_idempotent_witness :
    (CrateName.normalize_dashes "a-b".data).text.length = "a-b".data.length ∧
    (∀ i : Nat, ((CrateName.normalize_dashes "a-b".data).text)[i]? =
      ("a-b".data[i]?).map (fun c => if c = '-' then '_' else c)) ∧
    CrateName.normalize_dashes ((CrateName.normalize_dashes "a-b".data).text) =
      CrateName.normalize_dashes "a-b".data :=
  normalize_dashes_total_idempotent "a-b".data

/-- Witness for C9 at the concrete input "2015" and the variant `Edition2015`. -/
theorem edition_round_trip_witness :
    ((Edition.from_str "2015".data = Except.ok Edition.Edition2015 ↔ "2015".data = "2015".data) ∧
      (Edition.from_str "2015".data = Except.ok Edition.Edition2018 ↔ "2015".data = "2018".data) ∧
      (Edition.from_str "2015".data = Except.error ⟨"2015".data⟩ ↔
        ("2015".data ≠ "2015".data ∧ "2015".data ≠ "2018".data))) ∧
    Edition.from_str (Edition.fmt Edition.Edition2015) = Except.ok Edition.Edition2015 :=
  ⟨edition_round_trip.1 "2015".data, edition_round_trip.2 Edition.Edition2015⟩
